import Mathlib

/-!
Verification of the PySpark API usage analyzer (`find_pyspark_api_usage.py`).

This file gives a shallow embedding of the analyzer: the catalog built by
`PySparkUsageAnalyzer.__init__`, call extraction over a model of the Python
AST (`ast.walk` breadth-first traversal), module disambiguation
(`_determine_module`, including its in-place `set.pop` mutation of the shared
catalog sets), context redaction (`_get_context`), argument shape
classification (`_get_arg_types`), per-file analysis (`analyze_file`), the
directory driver (`analyze_directory`, modelled sequentially in file order;
the thread pool only changes the interleaving of per-file results), report
serialization, and the catalog loader (`load_pyspark_functions`) together
with the `main` control flow.

Python `set` values are modelled as duplicate-free lists whose order stands
for the set's (arbitrary) iteration order; `set.pop` removes the first list
element.  Python `dict` is an association list in key insertion order.
Machine strings are Lean `String`s; `pat in s` is substring containment.
-/

namespace PysparkUsage

/-- `startsWithL pat l` is true when `pat` is a prefix of `l` (character lists). -/
def startsWithL : List Char → List Char → Bool
  | [], _ => true
  | _ :: _, [] => false
  | p :: ps, c :: cs => p = c && startsWithL ps cs

/-- `containsList pat l`: `pat` occurs as a contiguous sublist of `l`. -/
def containsList (pat : List Char) : List Char → Bool
  | [] => pat.isEmpty
  | c :: rest => startsWithL pat (c :: rest) || containsList pat rest

/-- Python's substring test `pat in s`. -/
def containsSub (s : String) (pat : String) : Bool :=
  containsList pat.data s.data

/-- Model of the Python expression AST fragment the analyzer inspects.
Constructors mirror `ast.Name`, `ast.Attribute`, `ast.Constant` (carrying
`type(value).__name__`), `ast.List`, `ast.Dict`, `ast.Call` (positional
args and keyword-argument value expressions, with `lineno`/`col_offset`),
and a catch-all for every other node kind carrying the runtime kind name
`type(node).__name__` and the node's children. -/
inductive Expr where
  | name (id : String)
  | attrAccess (value : Expr) (attr : String)
  | const (pyType : String)
  | listLit (elts : List Expr)
  | dictLit (keys : List Expr) (values : List Expr)
  | call (func : Expr) (args : List Expr) (kwargValues : List Expr)
      (lineno : Nat) (colOffset : Nat)
  | other (kind : String) (children : List Expr)

/-- The child nodes of an AST node, in Python field order
(`ast.iter_child_nodes`). -/
def Expr.children : Expr → List Expr
  | .name _ => []
  | .attrAccess v _ => [v]
  | .const _ => []
  | .listLit elts => elts
  | .dictLit ks vs => ks ++ vs
  | .call f args kws _ _ => f :: (args ++ kws)
  | .other _ cs => cs

mutual

/-- Node count of an expression (termination measure for the traversal). -/
def Expr.size : Expr → Nat
  | .name _ => 1
  | .attrAccess v _ => 1 + Expr.size v
  | .const _ => 1
  | .listLit elts => 1 + sizeList elts
  | .dictLit ks vs => 1 + sizeList ks + sizeList vs
  | .call f args kws _ _ => 1 + Expr.size f + sizeList args + sizeList kws
  | .other _ cs => 1 + sizeList cs

/-- Total node count of a list of expressions. -/
def sizeList : List Expr → Nat
  | [] => 0
  | e :: es => Expr.size e + sizeList es

end

/-- Fuel-indexed worker for the breadth-first traversal (structural
recursion on the fuel, so that concrete runs reduce definitionally; each
step pops one node, and the traversal yields exactly `sizeList` nodes, so
`sizeList` fuel always suffices). -/
def walkF : Nat → List Expr → List Expr
  | _, [] => []
  | 0, q => q
  | fuel + 1, e :: q => e :: walkF fuel (q ++ Expr.children e)

/-- `ast.walk`: breadth-first traversal of a forest of AST nodes, yielding
every node exactly once.  Python keeps a deque seeded with the root, pops
from the left and appends each popped node's children on the right. -/
def walk (roots : List Expr) : List Expr :=
  walkF (sizeList roots) roots

/-- `PySparkUsageAnalyzer._get_func_name`: the callee name of a call —
`node.id` for a bare identifier, `node.attr` for an attribute access,
`None` for every other callee form. -/
def getFuncName : Expr → Option String
  | .name id => some id
  | .attrAccess _ attr => some attr
  | _ => none

/-- The attribute-chain walk inside `_get_arg_types`: collect the `attr`
components innermost-first, prepending the base identifier when the chain
bottoms out in a `Name` (and nothing when it does not). -/
def collectAttrChain : Expr → List String
  | .attrAccess v attr => collectAttrChain v ++ [attr]
  | .name id => [id]
  | _ => []

/-- `PySparkUsageAnalyzer._get_arg_types`, one argument: identifier text,
dotted attribute path, the literal's runtime type name, `"list"`, `"dict"`,
`"Call"`, or the node kind name. -/
def getArgType : Expr → String
  | .name id => id
  | .attrAccess v attr => String.intercalate "." (collectAttrChain (.attrAccess v attr))
  | .const pyType => pyType
  | .listLit _ => "list"
  | .dictLit _ _ => "dict"
  | .call _ _ _ _ _ => "Call"
  | .other kind _ => kind

/-- The placeholder text the redactor substitutes for literal interiors. -/
def redactTag : String := "<redacted>"

/-- Find the next occurrence of `c`; return the remainder after it. -/
def findClose (c : Char) : List Char → Option (List Char)
  | [] => none
  | x :: xs => if x = c then some xs else findClose c xs

/-- Fuel-indexed worker for the quote pass (structural recursion on the
fuel; the scan consumes at least one character per step, so the input
length is always enough fuel). -/
def redactQuotedF (q : Char) : Nat → List Char → List Char
  | _, [] => []
  | 0, l => l
  | fuel + 1, x :: xs =>
    if x = q then
      match findClose q xs with
      | some rest => (q :: redactTag.data ++ [q]) ++ redactQuotedF q fuel rest
      | none => x :: xs
    else
      x :: redactQuotedF q fuel xs

/-- One `re.sub` pass with pattern `q[^q]*q` (for `q` a quote character) and
replacement `q<redacted>q`: quotes pair leftmost; an opener with no later
closer matches nothing. -/
def redactQuoted (q : Char) (l : List Char) : List Char :=
  redactQuotedF q l.length l

/-- Fuel-indexed worker for the parenthesis pass. -/
def redactParensF : Nat → List Char → List Char
  | _, [] => []
  | 0, l => l
  | fuel + 1, x :: xs =>
    if x = '(' then
      match xs with
      | ')' :: ys => x :: redactParensF fuel (')' :: ys)
      | ys =>
        match findClose ')' ys with
        | some rest => ("(<redacted>)").data ++ redactParensF fuel rest
        | none => x :: ys
    else
      x :: redactParensF fuel xs

/-- The `re.sub(r'\([^)]+\)', '(<redacted>)', ..)` pass: a parenthesized
group with a nonempty, `)`-free interior is collapsed; an immediately closed
`()` is left alone, as is an opener with no later closer. -/
def redactParens (l : List Char) : List Char :=
  redactParensF l.length l

/-- Characters stripped by Python `str.strip()` (the ASCII whitespace set;
the exotic Unicode space classes are outside the modelled fragment). -/
def isPySpace (c : Char) : Bool :=
  c = ' ' || c = '\t' || c = '\n' || c = '\r' || c = '\x0b' || c = '\x0c'

/-- Python `str.strip()` on a character list. -/
def pyStrip (l : List Char) : List Char :=
  ((l.dropWhile isPySpace).reverse.dropWhile isPySpace).reverse

/-- Python `str.splitlines()` worker over an accumulator of the current
line's characters in reverse. -/
def splitlinesAux : List Char → List Char → List (List Char)
  | acc, [] => if acc.isEmpty then [] else [acc.reverse]
  | acc, '\r' :: '\n' :: rest => acc.reverse :: splitlinesAux [] rest
  | acc, '\r' :: rest => acc.reverse :: splitlinesAux [] rest
  | acc, '\n' :: rest => acc.reverse :: splitlinesAux [] rest
  | acc, c :: rest => splitlinesAux (c :: acc) rest

/-- Python `str.splitlines()` restricted to the `\n`, `\r\n` and `\r`
terminators (the analyzer never feeds it the exotic Unicode breaks). -/
def splitlines (l : List Char) : List (List Char) :=
  splitlinesAux [] l

/-- The three redaction passes of `_get_context` applied to one stripped
line: double-quoted interiors, then single-quoted interiors, then
parenthesized groups. -/
def redactLine (l : List Char) : List Char :=
  redactParens (redactQuoted '\'' (redactQuoted '"' (pyStrip l)))

/-- `PySparkUsageAnalyzer._get_context`: the stripped, redacted source line
at the 1-based `lineNumber`, or `""` when the index is out of range. -/
def getContext (content : String) (lineNumber : Nat) : String :=
  if 1 ≤ lineNumber then
    match (splitlines content.data)[lineNumber - 1]? with
    | some line => String.mk (redactLine line)
    | none => ""
  else ""

/-- `FunctionMatch`: a matched call with its location information. -/
structure FunctionMatch where
  name : String
  module : String
  file_path : String
  line_number : Nat
  column : Nat
  context : String
  args : List String
deriving DecidableEq, Repr

/-- Analyzer state: `function_modules` is the catalog dict (name → module
set, the set modelled as a duplicate-free list in iteration order);
`verify_functions` is the set of noise-prone names declared in `__init__`;
`ignored_paths` the path-filter markers. -/
structure Analyzer where
  function_modules : List (String × List String)
  verify_functions : List String
  ignored_paths : List String
deriving DecidableEq, Repr

/-- Dict lookup on the association-list model of `function_modules`. -/
def lookupFM : List (String × List String) → String → Option (List String)
  | [], _ => none
  | (k, v) :: rest, n => if k = n then some v else lookupFM rest n

/-- Replace the module set stored under an existing key (in-place `set`
mutation seen through the dict); absent keys are untouched. -/
def updateFM : List (String × List String) → String → List String → List (String × List String)
  | [], _, _ => []
  | (k, v) :: rest, n, nv => if k = n then (k, nv) :: rest else (k, v) :: updateFM rest n nv

/-- One iteration of the `__init__` loop: ensure the key exists and `add`
the module to its set (Python `set.add` deduplicates). -/
def addModule (fm : List (String × List String)) (name module : String) :
    List (String × List String) :=
  match lookupFM fm name with
  | none => fm ++ [(name, [module])]
  | some mods => if module ∈ mods then fm else updateFM fm name (mods ++ [module])

/-- The catalog dict built by `PySparkUsageAnalyzer.__init__` from the
`(name, module)` pairs (given in the input set's iteration order). -/
def buildFunctionModules (pairs : List (String × String)) : List (String × List String) :=
  pairs.foldl (fun fm p => addModule fm p.1 p.2) []

/-- The `verify_functions` set declared (and never read) in `__init__`. -/
def initVerifyFunctions : List String :=
  ["join", "split", "get", "append", "count", "sum"]

/-- The `ignored_paths` markers declared in `__init__`. -/
def initIgnoredPaths : List String :=
  [".venv", "site-packages", "__pycache__", "tests", "test_", "venv"]

/-- `PySparkUsageAnalyzer.__init__`. -/
def mkAnalyzer (pairs : List (String × String)) : Analyzer :=
  { function_modules := buildFunctionModules pairs
    verify_functions := initVerifyFunctions
    ignored_paths := initIgnoredPaths }

/-- `PySparkUsageAnalyzer._should_ignore_path`: any marker occurs as a
substring of the path. -/
def shouldIgnorePath (a : Analyzer) (filePath : String) : Bool :=
  a.ignored_paths.any (fun p => containsSub filePath p)

/-- The ordered preference list scanned in `_determine_module`'s sql branch. -/
def sqlPreferenceList : List String := ["sql.functions", "sql.dataframe", "sql.column"]

/-- The preference scan: for the first pattern contained in some candidate,
return the first such candidate. -/
def findPreferred : List String → List String → Option String
  | [], _ => none
  | p :: ps, mods =>
    match mods.filter (fun m => containsSub m p) with
    | m :: _ => some m
    | [] => findPreferred ps mods

/-- `PySparkUsageAnalyzer._determine_module`, with the state threading made
explicit.  `available_modules` is the *shared* set object stored in the
catalog dict, so the two `available_modules.pop()` calls (singleton set;
several candidates none containing `"sql"`) remove the returned module from
the catalog itself — modelled by `updateFM`.  The sql branch returns without
mutating. -/
def determineModule (a : Analyzer) (funcName : String) : Option String × Analyzer :=
  match lookupFM a.function_modules funcName with
  | none => (none, a)
  | some [] => (none, a)
  | some [m] =>
      (some m, { a with function_modules := updateFM a.function_modules funcName [] })
  | some (m₁ :: m₂ :: rest) =>
      match (m₁ :: m₂ :: rest).filter (fun m => containsSub m "sql") with
      | s :: ss =>
          match findPreferred sqlPreferenceList (s :: ss) with
          | some m => (some m, a)
          | none => (some s, a)
      | [] =>
          (some m₁,
           { a with function_modules := updateFM a.function_modules funcName (m₂ :: rest) })

/-- A source file as `analyze_file` sees it: its path, raw text and — when
reading and `ast.parse` succeed — the parsed module's top-level nodes
(`none` models a decode or syntax failure, whose exception `analyze_file`
catches). -/
structure PyFile where
  path : String
  content : String
  tree : Option (List Expr)

/-- The per-call loop body of `analyze_file`, folded over the walked nodes:
for each `ast.Call` whose extracted name is truthy and present as a catalog
key, run `_determine_module` (threading its catalog mutation) and, when a
module comes back, record a `FunctionMatch`. -/
def processNodes (a : Analyzer) (content : String) (filePath : String) :
    List Expr → List FunctionMatch × Analyzer
  | [] => ([], a)
  | node :: rest =>
    match node with
    | .call fn args kws line col =>
      match getFuncName fn with
      | some funcName =>
        if funcName ≠ "" ∧ (lookupFM a.function_modules funcName).isSome = true then
          let r := determineModule a funcName
          match r.1 with
          | some m =>
            let tail := processNodes r.2 content filePath rest
            ({ name := funcName, module := m, file_path := filePath,
               line_number := line, column := col,
               context := getContext content line,
               args := args.map getArgType } :: tail.1, tail.2)
          | none => processNodes r.2 content filePath rest
        else processNodes a content filePath rest
      | none => processNodes a content filePath rest
    | _ => processNodes a content filePath rest

/-- `PySparkUsageAnalyzer.analyze_file`: ignored paths and unparseable files
yield no matches (the latter via the catch-all `except`); otherwise every
call node of the breadth-first walk is processed in order. -/
def analyzeFile (a : Analyzer) (f : PyFile) : List FunctionMatch × Analyzer :=
  if shouldIgnorePath a f.path then ([], a)
  else
    match f.tree with
    | none => ([], a)
    | some roots => processNodes a f.content f.path (walk roots)

/-- The driver loop of `analyze_directory` over the discovered files
(modelled in list order; the thread pool only permutes completion order):
each file is submitted to `analyze_file`, then ignored paths are recorded in
`ignored_files` with their results discarded, and other results are
appended to `matches`.  Returns (matches, ignored_files, final analyzer). -/
def runFiles : Analyzer → List PyFile → List FunctionMatch × (List String × Analyzer)
  | a, [] => ([], [], a)
  | a, f :: rest =>
    let r := analyzeFile a f
    let t := runFiles r.2 rest
    if shouldIgnorePath r.2 f.path then (t.1, f.path :: t.2.1, t.2.2)
    else (r.1 ++ t.1, t.2.1, t.2.2)

/-- The aggregate report object `analyze_directory` builds.  `matchList`
models the `"matches"` entry (the word `matches` is reserved in Lean). -/
structure Report where
  total_files_analyzed : Nat
  total_matches : Nat
  ignored_files : List String
  matchList : List FunctionMatch
deriving DecidableEq, Repr

/-- `analyze_directory`: construct the analyzer from the catalog pairs, run
every discovered file, and assemble the report from the collected matches
and ignored files. -/
def analyzeDirectory (pairs : List (String × String)) (files : List PyFile) : Report :=
  let r := runFiles (mkAnalyzer pairs) files
  { total_files_analyzed := files.length - r.2.1.length
    total_matches := r.1.length
    ignored_files := r.2.1
    matchList := r.1 }

/-- JSON values as `json.load` produces them. -/
inductive Json where
  | obj (fields : List (String × Json))
  | arr (elems : List Json)
  | str (s : String)
  | num (n : Int)
  | bool (b : Bool)
  | null

/-- The serialized form of one match record in the report's `"matches"`
list (the dict comprehension in `analyze_directory`), as an ordered list of
key/value pairs. -/
def serializeMatch (m : FunctionMatch) : List (String × Json) :=
  [("function", .str m.name),
   ("module", .str m.module),
   ("file", .str m.file_path),
   ("line", .num (Int.ofNat m.line_number)),
   ("column", .num (Int.ofNat m.column)),
   ("context", .str m.context),
   ("args", .arr (m.args.map Json.str))]

/-- The `report` dict `analyze_directory` passes to `json.dump`. -/
def serializeReport (r : Report) : List (String × Json) :=
  [("total_files_analyzed", .num (Int.ofNat r.total_files_analyzed)),
   ("total_matches", .num (Int.ofNat r.total_matches)),
   ("ignored_files", .arr (r.ignored_files.map Json.str)),
   ("matches", .arr (r.matchList.map (fun m => Json.obj (serializeMatch m))))]

/-- Python subscripting `value[key]` with a string key: only dicts succeed;
a missing key raises `KeyError`, every non-dict value raises `TypeError`. -/
def jsonIndex (j : Json) (key : String) : Except String Json :=
  match j with
  | .obj fields =>
    match fields.lookup key with
    | some v => .ok v
    | none => .error "KeyError"
  | _ => .error "TypeError: value is not subscriptable by a string key"

/-- Python iteration over a loaded JSON value: lists yield their elements,
dicts their keys, strings their one-character substrings; numbers, booleans
and `null` raise `TypeError`. -/
def pyIterate : Json → Except String (List Json)
  | .arr xs => .ok xs
  | .obj fields => .ok (fields.map (fun p => Json.str p.1))
  | .str s => .ok (s.data.map (fun c => Json.str (String.mk [c])))
  | _ => .error "TypeError: value is not iterable"

/-- Inserting `(name, module)` into the result set requires both components
hashable: dicts and lists raise `TypeError`.  Hashable scalars are rendered
to the strings the analyzer will compare against callee names (non-string
scalars load without error in the source; the rendering is a modelling
device to keep the catalog a set of string pairs). -/
def keyRender : Json → Except String String
  | .str s => .ok s
  | .num n => .ok (toString n)
  | .bool b => .ok (toString b)
  | .null => .ok "None"
  | .obj _ => .error "TypeError: unhashable type"
  | .arr _ => .error "TypeError: unhashable type"

/-- The set comprehension in `load_pyspark_functions`: for each element of
`data["functions"]`, read `func["name"]` and `func["module"]` and add the
pair; the first failure aborts the whole comprehension. -/
def extractPairs : List Json → Except String (List (String × String))
  | [] => .ok []
  | fn :: rest => do
    let n ← jsonIndex fn "name"
    let m ← jsonIndex fn "module"
    let ns ← keyRender n
    let ms ← keyRender m
    let tail ← extractPairs rest
    .ok ((ns, ms) :: tail)

/-- `load_pyspark_functions`: build the `(name, module)` pair set from the
loaded JSON document; any exception is logged and re-raised (hence an
`error` here), aborting the run. -/
def loadPysparkFunctions (data : Json) : Except String (List (String × String)) := do
  let functionsVal ← jsonIndex data "functions"
  let items ← pyIterate functionsVal
  extractPairs items

/-- Whether an `Except` computation succeeded. -/
def isOkE {ε α : Type} : Except ε α → Bool
  | .ok _ => true
  | .error _ => false

/-- The `main` control flow after argument parsing (argument parsing, file
reading and report persistence are external per the spec): load the catalog
JSON — any load failure propagates and the process exits non-zero before
analysis — then enumerate the target directory with `Path.rglob` and build
the report.  `dirListing = none` models a nonexistent target directory:
`main` performs no existence check and `rglob` on a nonexistent directory
yields no entries without raising (pathlib guards the scan with an `is_dir`
check; CPython ≥ 3.13 additionally suppresses scanning errors), so the run
proceeds over an empty file list and still produces a report. -/
def mainModel (catalogJson : Json) (dirListing : Option (List PyFile)) :
    Except String Report :=
  match loadPysparkFunctions catalogJson with
  | .error e => .error e
  | .ok pairs =>
    match dirListing with
    | none => .ok (analyzeDirectory pairs [])
    | some files => .ok (analyzeDirectory pairs files)

/-- The spec §8 scenario file: `df.select(x)` on line 10 (nine empty lines
before it), with the call's parsed form — an `ast.Call` whose callee is the
attribute access `df.select` and whose argument is the identifier `x`. -/
def selectFile : PyFile :=
  { path := "proj/app.py"
    content := "\n\n\n\n\n\n\n\n\ndf.select(x)"
    tree := some [Expr.other "Expr"
      [Expr.call (Expr.attrAccess (Expr.name "df") "select") [Expr.name "x"] [] 10 0]] }

/-! ### Helper lemmas about the catalog map and the disambiguator's state -/

theorem lookupFM_updateFM_self :
    ∀ (fm : List (String × List String)) (k : String) (v w : List String),
      lookupFM fm k = some v → lookupFM (updateFM fm k w) k = some w := by
  intro fm
  induction fm with
  | nil => intro k v w h; simp [lookupFM] at h
  | cons p rest ih =>
      intro k v w h
      obtain ⟨pk, pv⟩ := p
      by_cases hk : pk = k
      · simp [lookupFM, updateFM, hk]
      · simp only [lookupFM, updateFM, if_neg hk] at h ⊢
        exact ih k v w h

theorem lookupFM_updateFM_ne :
    ∀ (fm : List (String × List String)) (k n : String) (w : List String),
      k ≠ n → lookupFM (updateFM fm k w) n = lookupFM fm n := by
  intro fm
  induction fm with
  | nil => intro k n w _; simp [updateFM]
  | cons p rest ih =>
      intro k n w hne
      obtain ⟨pk, pv⟩ := p
      by_cases hk : pk = k
      · subst hk
        simp [lookupFM, updateFM, if_neg hne]
      · simp only [updateFM, if_neg hk, lookupFM]
        by_cases hn : pk = n
        · simp [hn]
        · simp only [if_neg hn]
          exact ih k n w hne

theorem determineModule_state (a : Analyzer) (n : String) :
    (determineModule a n).2 = a ∨
    ∃ v, (determineModule a n).2
        = { a with function_modules := updateFM a.function_modules n v } := by
  unfold determineModule
  cases h : lookupFM a.function_modules n with
  | none => simp
  | some l =>
    match l with
    | [] => simp
    | [m] => right; exact ⟨[], rfl⟩
    | m₁ :: m₂ :: rest =>
      cases hf : (m₁ :: m₂ :: rest).filter (fun m => containsSub m "sql") with
      | nil => simp only [hf]; right; exact ⟨m₂ :: rest, rfl⟩
      | cons s ss =>
        simp only [hf]
        cases hp : findPreferred sqlPreferenceList (s :: ss) <;> simp [hp]

theorem determineModule_ignored_paths (a : Analyzer) (n : String) :
    (determineModule a n).2.ignored_paths = a.ignored_paths := by
  rcases determineModule_state a n with h | ⟨v, h⟩ <;> rw [h]

theorem determineModule_verify_functions (a : Analyzer) (n : String) :
    (determineModule a n).2.verify_functions = a.verify_functions := by
  rcases determineModule_state a n with h | ⟨v, h⟩ <;> rw [h]

theorem determineModule_lookup_ne (a : Analyzer) (n' n : String) (hne : n' ≠ n) :
    lookupFM (determineModule a n').2.function_modules n = lookupFM a.function_modules n := by
  rcases determineModule_state a n' with h | ⟨v, h⟩
  · rw [h]
  · rw [h]
    exact lookupFM_updateFM_ne _ _ _ _ hne

theorem determineModule_emptyEntry (a : Analyzer) (n : String)
    (h : lookupFM a.function_modules n = some []) :
    determineModule a n = (none, a) := by
  unfold determineModule
  rw [h]

theorem determineModule_singleton (a : Analyzer) (n m : String)
    (h : lookupFM a.function_modules n = some [m]) :
    determineModule a n
      = (some m, { a with function_modules := updateFM a.function_modules n [] }) := by
  unfold determineModule
  rw [h]

theorem findPreferred_singleton :
    ∀ (ps : List String) (m m' : String), findPreferred ps [m] = some m' → m' = m := by
  intro ps
  induction ps with
  | nil => intro m m' h; simp [findPreferred] at h
  | cons p rest ih =>
      intro m m' h
      simp only [findPreferred] at h
      by_cases hc : containsSub m p = true
      · simp [List.filter, hc] at h
        exact h.symm
      · simp [List.filter, hc] at h
        exact ih m m' h

theorem determineModule_preserves_emptyEntry (a : Analyzer) (n' n : String)
    (h : lookupFM a.function_modules n = some []) :
    lookupFM (determineModule a n').2.function_modules n = some [] := by
  by_cases hne : n' = n
  · subst hne
    rw [determineModule_emptyEntry a n' h]
    exact h
  · rw [determineModule_lookup_ne a n' n hne]
    exact h

/-! ### Invariant lemmas over the traversal and the driver -/

theorem processNodes_emptyEntry (n : String) :
    ∀ (nodes : List Expr) (a : Analyzer) (content fp : String),
      lookupFM a.function_modules n = some [] →
      (∀ mt ∈ (processNodes a content fp nodes).1, mt.name ≠ n) ∧
      lookupFM (processNodes a content fp nodes).2.function_modules n = some [] := by
  intro nodes
  induction nodes with
  | nil =>
      intro a c fp h
      refine ⟨?_, ?_⟩
      · intro mt hm
        simp [processNodes] at hm
      · simpa [processNodes] using h
  | cons node rest ih =>
      intro a c fp h
      cases node with
      | call fn args kws line col =>
          simp only [processNodes]
          cases hg : getFuncName fn with
          | none => exact ih a c fp h
          | some funcName =>
              dsimp only
              by_cases hcond :
                  funcName ≠ "" ∧ (lookupFM a.function_modules funcName).isSome = true
              · rw [if_pos hcond]
                have hPres : lookupFM (determineModule a funcName).2.function_modules n
                    = some [] :=
                  determineModule_preserves_emptyEntry a funcName n h
                cases hr : (determineModule a funcName).1 with
                | none =>
                    dsimp only
                    exact ih (determineModule a funcName).2 c fp hPres
                | some m =>
                    have hfn : funcName ≠ n := by
                      intro heq
                      subst heq
                      rw [determineModule_emptyEntry a funcName h] at hr
                      simp at hr
                    refine ⟨?_, ?_⟩
                    · intro mt hm
                      simp only [List.mem_cons] at hm
                      cases hm with
                      | inl hm => subst hm; exact hfn
                      | inr hm =>
                          exact (ih (determineModule a funcName).2 c fp hPres).1 mt hm
                    · exact (ih (determineModule a funcName).2 c fp hPres).2
              · rw [if_neg hcond]
                exact ih a c fp h
      | name id => exact ih a c fp h
      | attrAccess v attr => exact ih a c fp h
      | const t => exact ih a c fp h
      | listLit elts => exact ih a c fp h
      | dictLit ks vs => exact ih a c fp h
      | other kind cs => exact ih a c fp h

theorem analyzeFile_emptyEntry (a : Analyzer) (f : PyFile) (n : String)
    (h : lookupFM a.function_modules n = some []) :
    (∀ mt ∈ (analyzeFile a f).1, mt.name ≠ n) ∧
    lookupFM (analyzeFile a f).2.function_modules n = some [] := by
  unfold analyzeFile
  cases hig : shouldIgnorePath a f.path with
  | true => simpa using h
  | false =>
    cases ht : f.tree with
    | none => simpa using h
    | some roots =>
      simpa using processNodes_emptyEntry n (walk roots) a f.content f.path h

theorem runFiles_emptyEntry (n : String) :
    ∀ (files : List PyFile) (a : Analyzer),
      lookupFM a.function_modules n = some [] →
      ∀ mt ∈ (runFiles a files).1, mt.name ≠ n := by
  intro files
  induction files with
  | nil =>
      intro a h mt hm
      simp [runFiles] at hm
  | cons f rest ih =>
      intro a h mt hm
      simp only [runFiles] at hm
      have hf := analyzeFile_emptyEntry a f n h
      cases hig : shouldIgnorePath (analyzeFile a f).2 f.path with
      | true =>
          rw [hig] at hm
          simp only [if_true] at hm
          exact ih (analyzeFile a f).2 hf.2 mt hm
      | false =>
          rw [hig] at hm
          simp only [Bool.false_eq_true, if_false, List.mem_append] at hm
          cases hm with
          | inl hm => exact hf.1 mt hm
          | inr hm => exact ih (analyzeFile a f).2 hf.2 mt hm

theorem processNodes_ignored_paths :
    ∀ (nodes : List Expr) (a : Analyzer) (c fp : String),
      (processNodes a c fp nodes).2.ignored_paths = a.ignored_paths := by
  intro nodes
  induction nodes with
  | nil => intro a c fp; rfl
  | cons node rest ih =>
      intro a c fp
      cases node with
      | call fn args kws line col =>
          simp only [processNodes]
          cases hg : getFuncName fn with
          | none => exact ih a c fp
          | some funcName =>
              dsimp only
              by_cases hcond :
                  funcName ≠ "" ∧ (lookupFM a.function_modules funcName).isSome = true
              · rw [if_pos hcond]
                cases hr : (determineModule a funcName).1 with
                | none =>
                    dsimp only
                    rw [ih (determineModule a funcName).2 c fp]
                    exact determineModule_ignored_paths a funcName
                | some m =>
                    dsimp only
                    rw [ih (determineModule a funcName).2 c fp]
                    exact determineModule_ignored_paths a funcName
              · rw [if_neg hcond]
                exact ih a c fp
      | name id => exact ih a c fp
      | attrAccess v attr => exact ih a c fp
      | const t => exact ih a c fp
      | listLit elts => exact ih a c fp
      | dictLit ks vs => exact ih a c fp
      | other kind cs => exact ih a c fp

theorem analyzeFile_ignored_paths (a : Analyzer) (f : PyFile) :
    (analyzeFile a f).2.ignored_paths = a.ignored_paths := by
  unfold analyzeFile
  cases hig : shouldIgnorePath a f.path with
  | true => rfl
  | false =>
    cases ht : f.tree with
    | none => rfl
    | some roots => exact processNodes_ignored_paths (walk roots) a f.content f.path

theorem shouldIgnorePath_eq_of_paths (a a' : Analyzer) (p : String)
    (h : a.ignored_paths = a'.ignored_paths) :
    shouldIgnorePath a p = shouldIgnorePath a' p := by
  unfold shouldIgnorePath
  rw [h]

theorem runFiles_ignored_length_le :
    ∀ (files : List PyFile) (a : Analyzer),
      ((runFiles a files).2.1).length ≤ files.length := by
  intro files
  induction files with
  | nil => intro a; simp [runFiles]
  | cons f rest ih =>
      intro a
      simp only [runFiles]
      cases hig : shouldIgnorePath (analyzeFile a f).2 f.path with
      | true =>
          simp only [if_true, List.length_cons]
          exact Nat.succ_le_succ (ih (analyzeFile a f).2)
      | false =>
          simp only [Bool.false_eq_true, if_false, List.length_cons]
          exact Nat.le_succ_of_le (ih (analyzeFile a f).2)

theorem determineModule_set_verify (a : Analyzer) (v : List String) (n : String) :
    determineModule { a with verify_functions := v } n
      = ((determineModule a n).1, { (determineModule a n).2 with verify_functions := v }) := by
  unfold determineModule
  dsimp only
  cases h : lookupFM a.function_modules n with
  | none => simp
  | some l =>
    match l with
    | [] => simp
    | [m] => rfl
    | m₁ :: m₂ :: rest =>
      dsimp only
      cases hf : (m₁ :: m₂ :: rest).filter (fun m => containsSub m "sql") with
      | nil => simp only [hf]
      | cons s ss =>
        simp only [hf]
        cases hp : findPreferred sqlPreferenceList (s :: ss) <;> simp [hp]

theorem processNodes_set_verify :
    ∀ (nodes : List Expr) (a : Analyzer) (v : List String) (c fp : String),
      processNodes { a with verify_functions := v } c fp nodes
        = ((processNodes a c fp nodes).1,
           { (processNodes a c fp nodes).2 with verify_functions := v }) := by
  intro nodes
  induction nodes with
  | nil => intro a v c fp; rfl
  | cons node rest ih =>
      intro a v c fp
      cases node with
      | call fn args kws line col =>
          simp only [processNodes]
          cases hg : getFuncName fn with
          | none => exact ih a v c fp
          | some funcName =>
              dsimp only
              by_cases hcond :
                  funcName ≠ "" ∧ (lookupFM a.function_modules funcName).isSome = true
              · rw [if_pos hcond, if_pos hcond]
                rw [determineModule_set_verify a v funcName]
                cases hr : (determineModule a funcName).1 with
                | none =>
                    dsimp only
                    exact ih (determineModule a funcName).2 v c fp
                | some m =>
                    dsimp only
                    rw [ih (determineModule a funcName).2 v c fp]
              · rw [if_neg hcond, if_neg hcond]
                exact ih a v c fp
      | name id => exact ih a v c fp
      | attrAccess vv attr => exact ih a v c fp
      | const t => exact ih a v c fp
      | listLit elts => exact ih a v c fp
      | dictLit ks vs => exact ih a v c fp
      | other kind cs => exact ih a v c fp

theorem analyzeFile_set_verify (a : Analyzer) (v : List String) (f : PyFile) :
    analyzeFile { a with verify_functions := v } f
      = ((analyzeFile a f).1, { (analyzeFile a f).2 with verify_functions := v }) := by
  unfold analyzeFile
  dsimp only
  rw [shouldIgnorePath_eq_of_paths { a with verify_functions := v } a f.path rfl]
  cases hig : shouldIgnorePath a f.path with
  | true => rfl
  | false =>
    cases ht : f.tree with
    | none => rfl
    | some roots => exact processNodes_set_verify (walk roots) a v f.content f.path

theorem analyzeFile_parsefail (a : Analyzer) (f : PyFile)
    (hig : shouldIgnorePath a f.path = false) (ht : f.tree = none) :
    analyzeFile a f = ([], a) := by
  unfold analyzeFile
  rw [hig, ht]
  simp

theorem runFiles_skip_parsefail :
    ∀ (pre : List PyFile) (a : Analyzer) (f : PyFile) (post : List PyFile),
      shouldIgnorePath a f.path = false → f.tree = none →
      runFiles a (pre ++ f :: post) = runFiles a (pre ++ post) := by
  intro pre
  induction pre with
  | nil =>
      intro a f post hig ht
      simp only [List.nil_append, runFiles]
      rw [analyzeFile_parsefail a f hig ht]
      rw [hig]
      rfl
  | cons x rest ih =>
      intro a f post hig ht
      simp only [List.cons_append, runFiles]
      have hig' : shouldIgnorePath (analyzeFile a x).2 f.path = false := by
        rw [shouldIgnorePath_eq_of_paths (analyzeFile a x).2 a f.path
              (analyzeFile_ignored_paths a x)]
        exact hig
      simp only [List.append_eq]
      rw [ih (analyzeFile a x).2 f post hig' ht]

/-! ### Claim theorems -/

/-- C1: the spec claims the Catalog is never mutated after construction.
The code violates this: `_determine_module` runs `available_modules.pop()`
on the set object shared with `function_modules`, so resolving a name whose
candidate set is a singleton empties that catalog entry.  Evaluated at the
failing input: the analyzer built from `{("foo", "m.x")}` maps `"foo"` to
`{"m.x"}`; after one resolution of `"foo"` — or one analysis of a file
calling `foo()` — the entry is the empty set. -/
theorem catalog_mutated_on_singleton_resolution :
    (mkAnalyzer [("foo", "m.x")]).function_modules = [("foo", ["m.x"])] ∧
    (determineModule (mkAnalyzer [("foo", "m.x")]) "foo").2.function_modules
      = [("foo", [])] ∧
    (analyzeFile (mkAnalyzer [("foo", "m.x")])
        { path := "app.py", content := "foo()",
          tree := some [Expr.call (Expr.name "foo") [] [] 1 0] }).2.function_modules
      = [("foo", [])] :=
  ⟨rfl, rfl, rfl⟩

/-- C2: the claim says every call to a name mapped to exactly one module
produces a Match with that module.  The code violates it: the first
resolution pops `"m.x"` out of the shared catalog set, so in a file with
`foo()` on line 1 and on line 2 only the line-1 call yields a Match — the
line-2 call finds an emptied candidate set and produces nothing. -/
theorem second_call_to_singleton_name_unmatched :
    ((analyzeFile (mkAnalyzer [("foo", "m.x")])
        { path := "app.py", content := "foo()\nfoo()",
          tree := some [Expr.other "Expr" [Expr.call (Expr.name "foo") [] [] 1 0],
                        Expr.other "Expr" [Expr.call (Expr.name "foo") [] [] 2 0]] }).1.map
        (fun mt => (mt.name, mt.module, mt.line_number)))
      = [("foo", "m.x", 1)] :=
  rfl

/-- C3: resolving a name whose catalog candidate set has exactly one
element returns that element and removes it from the shared catalog set;
every later resolution of the same name finds the emptied set and returns
no module, and no later call-site — in this file or any later file of the
run — produces a Match for that name. -/
theorem singleton_resolution_consumes_catalog (a : Analyzer) (n m : String)
    (h : lookupFM a.function_modules n = some [m]) :
    (determineModule a n).1 = some m ∧
    lookupFM (determineModule a n).2.function_modules n = some [] ∧
    determineModule (determineModule a n).2 n = (none, (determineModule a n).2) ∧
    (∀ nodes content fp,
        ∀ mt ∈ (processNodes (determineModule a n).2 content fp nodes).1, mt.name ≠ n) ∧
    ∀ files, ∀ mt ∈ (runFiles (determineModule a n).2 files).1, mt.name ≠ n := by
  have hd := determineModule_singleton a n m h
  have h2 : lookupFM (determineModule a n).2.function_modules n = some [] := by
    rw [hd]
    exact lookupFM_updateFM_self a.function_modules n [m] [] h
  refine ⟨by rw [hd], h2, determineModule_emptyEntry _ n h2, ?_, ?_⟩
  · intro nodes content fp mt hm
    exact (processNodes_emptyEntry n nodes (determineModule a n).2 content fp h2).1 mt hm
  · intro files mt hm
    exact runFiles_emptyEntry n files (determineModule a n).2 h2 mt hm

/-- Witness for C3 at the concrete catalog `{("foo", "m.x")}`. -/
theorem singleton_resolution_consumes_catalog_w :
    (determineModule (mkAnalyzer [("foo", "m.x")]) "foo").1 = some "m.x" ∧
    lookupFM (determineModule (mkAnalyzer [("foo", "m.x")]) "foo").2.function_modules "foo"
      = some [] :=
  ⟨(singleton_resolution_consumes_catalog (mkAnalyzer [("foo", "m.x")]) "foo" "m.x" rfl).1,
   (singleton_resolution_consumes_catalog (mkAnalyzer [("foo", "m.x")]) "foo" "m.x" rfl).2.1⟩

/-- C4: when a name's candidate set has at least two modules of which
exactly one contains the substring `"sql"`, disambiguation returns that
candidate whatever the set's iteration order (the order is the quantified
list order); and in the §8 scenario — catalog `{("select", "pkg.sql.functions"),
("select", "pkg.other")}` in either iteration order, file with `df.select(x)`
on line 10 — the produced Match has name `"select"`, module
`"pkg.sql.functions"`, line 10 and args `["x"]`. -/
theorem sql_candidate_preferred :
    (∀ (a : Analyzer) (n m : String) (l : List String),
        lookupFM a.function_modules n = some l →
        2 ≤ l.length →
        l.filter (fun x => containsSub x "sql") = [m] →
        determineModule a n = (some m, a)) ∧
    (∀ pairs : List (String × String),
        (pairs = [("select", "pkg.sql.functions"), ("select", "pkg.other")] ∨
         pairs = [("select", "pkg.other"), ("select", "pkg.sql.functions")]) →
        ((analyzeFile (mkAnalyzer pairs) selectFile).1.map
            (fun mt => (mt.name, mt.module, mt.line_number, mt.args)))
          = [("select", "pkg.sql.functions", 10, ["x"])]) := by
  constructor
  · intro a n m l hl hlen hf
    cases l with
    | nil => simp at hlen
    | cons m₁ l₁ =>
      cases l₁ with
      | nil => simp at hlen
      | cons m₂ l₂ =>
        unfold determineModule
        rw [hl]
        dsimp only
        rw [hf]
        dsimp only
        cases hp : findPreferred sqlPreferenceList [m] with
        | none => rfl
        | some m' => rw [findPreferred_singleton sqlPreferenceList m m' hp]
  · intro pairs hp
    cases hp with
    | inl hp => subst hp; rfl
    | inr hp => subst hp; rfl

/-- Witness for C4: both conjuncts applied at the concrete scenario. -/
theorem sql_candidate_preferred_w :
    determineModule
        (mkAnalyzer [("select", "pkg.other"), ("select", "pkg.sql.functions")]) "select"
      = (some "pkg.sql.functions",
         mkAnalyzer [("select", "pkg.other"), ("select", "pkg.sql.functions")]) ∧
    ((analyzeFile (mkAnalyzer [("select", "pkg.sql.functions"), ("select", "pkg.other")])
        selectFile).1.map (fun mt => (mt.name, mt.module, mt.line_number, mt.args)))
      = [("select", "pkg.sql.functions", 10, ["x"])] :=
  ⟨sql_candidate_preferred.1
      (mkAnalyzer [("select", "pkg.other"), ("select", "pkg.sql.functions")])
      "select" "pkg.sql.functions" ["pkg.other", "pkg.sql.functions"]
      rfl (by decide) rfl,
   sql_candidate_preferred.2
      [("select", "pkg.sql.functions"), ("select", "pkg.other")] (Or.inl rfl)⟩

/-- C5 counterexample: the claim says each Match record is serialized with
the fields name, module, file, line, column, context, args.  In the code
the first key is `"function"`, not `"name"`: the report produced from a
run with one match serializes that match with key list
`["function", "module", "file", "line", "column", "context", "args"]`,
which does not contain `"name"`. -/
theorem match_record_function_key_cx :
    ((analyzeDirectory [("foo", "m.x")]
        [{ path := "app.py", content := "foo()",
           tree := some [Expr.call (Expr.name "foo") [] [] 1 0] }]).matchList.map
        (fun m => (serializeMatch m).map Prod.fst))
      = [["function", "module", "file", "line", "column", "context", "args"]] ∧
    ("name" ∈ (["function", "module", "file", "line", "column", "context", "args"] :
        List String)) = False :=
  ⟨rfl, by simp⟩

/-- C5 amended: every Match record is serialized with exactly the fields
function, module, file, line, column, context, args (the code writes the
callee name under the key `"function"`, not `"name"`). -/
theorem match_serialized_fields (m : FunctionMatch) :
    (serializeMatch m).map Prod.fst
      = ["function", "module", "file", "line", "column", "context", "args"] :=
  rfl

/-- C6: the claim says the run is rejected with a fatal, non-zero exit both
when the catalog is malformed and when the target directory does not exist.
The catalog half holds in the code: `load_pyspark_functions` re-raises and
`main` does not catch, so a catalog without a `"functions"` key aborts
before analysis (first conjunct).  The directory half is false of the code:
`main` never checks that the target directory exists, and `Path.rglob` on a
nonexistent directory yields no entries without raising, so the run
completes normally and writes a report with `total_files_analyzed = 0` —
evaluated here at the failing input of a well-formed catalog and a missing
directory (second conjunct). -/
theorem missing_directory_not_rejected :
    isOkE (mainModel (Json.obj []) (some [])) = false ∧
    mainModel
        (Json.obj [("functions",
          Json.arr [Json.obj [("name", Json.str "foo"), ("module", Json.str "m.x")]])])
        none
      = .ok { total_files_analyzed := 0, total_matches := 0,
              ignored_files := [], matchList := [] } :=
  ⟨rfl, rfl⟩

/-- C7 counterexample: the claim's general clause says the stored context
never contains the interior of any double- or single-quoted literal on the
line.  The line `x = 'a"b'; y = "secret"` contains the complete
double-quoted literal `"secret"`, yet the leftmost pairing of the
double-quote regex pairs the `"` inside `'a"b'` with the opening quote of
`"secret"`, and the redacted context keeps `secret` verbatim. -/
theorem quoted_literal_interior_leaks_cx :
    getContext "x = 'a\"b'; y = \"secret\"" 1 = "x = 'a\"<redacted>\"secret\"" ∧
    containsSub (getContext "x = 'a\"b'; y = \"secret\"" 1) "secret" = true ∧
    containsSub "x = 'a\"b'; y = \"secret\"" "\"secret\"" = true :=
  ⟨rfl, rfl, rfl⟩

/-- C7 amended: for every file content whose line at the Match's line
number is exactly `foo("secret", x)`, the stored redacted context contains
no occurrence of `secret` and contains the placeholder `<redacted>`.  (The
blanket guarantee for arbitrary quoted literals fails when quote characters
of one kind occur inside literals of the other kind, as the counterexample
shows.) -/
theorem redaction_of_double_quoted_secret (content : String) (n : Nat)
    (h1 : 1 ≤ n)
    (h2 : (splitlines content.data)[n - 1]? = some ("foo(\"secret\", x)".data)) :
    containsSub (getContext content n) "secret" = false ∧
    containsSub (getContext content n) "<redacted>" = true := by
  unfold getContext
  rw [if_pos h1, h2]
  exact ⟨rfl, rfl⟩

/-- Witness for C7's amended theorem at a one-line file. -/
theorem redaction_of_double_quoted_secret_w :
    containsSub (getContext "foo(\"secret\", x)" 1) "secret" = false ∧
    containsSub (getContext "foo(\"secret\", x)" 1) "<redacted>" = true :=
  redaction_of_double_quoted_secret "foo(\"secret\", x)" 1 (by decide) rfl

/-- C8: a non-ignored file whose content cannot be parsed contributes zero
matches without raising (the analyzer returns an empty list and leaves its
state unchanged), is not added to `ignored_files`, still counts toward
`total_files_analyzed`, and the rest of the run is unaffected: the report
for a run containing the failing file has the same matches and ignored
files as the run without it, and one more analyzed file. -/
theorem parse_failure_isolated
    (pairs : List (String × String)) (f : PyFile) (pre post : List PyFile)
    (hig : shouldIgnorePath (mkAnalyzer pairs) f.path = false)
    (ht : f.tree = none) :
    analyzeFile (mkAnalyzer pairs) f = ([], mkAnalyzer pairs) ∧
    (analyzeDirectory pairs (pre ++ f :: post)).matchList
      = (analyzeDirectory pairs (pre ++ post)).matchList ∧
    (analyzeDirectory pairs (pre ++ f :: post)).ignored_files
      = (analyzeDirectory pairs (pre ++ post)).ignored_files ∧
    (analyzeDirectory pairs (pre ++ f :: post)).total_files_analyzed
      = (analyzeDirectory pairs (pre ++ post)).total_files_analyzed + 1 := by
  have hrun := runFiles_skip_parsefail pre (mkAnalyzer pairs) f post hig ht
  refine ⟨analyzeFile_parsefail _ f hig ht, ?_, ?_, ?_⟩
  · simp only [analyzeDirectory, hrun]
  · simp only [analyzeDirectory, hrun]
  · have hle := runFiles_ignored_length_le (pre ++ post) (mkAnalyzer pairs)
    simp only [analyzeDirectory, hrun]
    have hlen : (pre ++ f :: post).length = (pre ++ post).length + 1 := by
      simp [List.length_append]
      omega
    omega

/-- Witness for C8 at a singleton run over an unparseable file. -/
theorem parse_failure_isolated_w :
    analyzeFile (mkAnalyzer [("foo", "m.x")]) ⟨"bad.py", "def f(:", none⟩
      = ([], mkAnalyzer [("foo", "m.x")]) ∧
    (analyzeDirectory [("foo", "m.x")] [⟨"bad.py", "def f(:", none⟩]).total_files_analyzed
      = (analyzeDirectory [("foo", "m.x")] []).total_files_analyzed + 1 :=
  ⟨(parse_failure_isolated [("foo", "m.x")] ⟨"bad.py", "def f(:", none⟩ [] [] rfl rfl).1,
   (parse_failure_isolated [("foo", "m.x")] ⟨"bad.py", "def f(:", none⟩ [] [] rfl rfl).2.2.2⟩

/-- C9: in every produced Report, `total_matches` equals the length of the
matches list and `total_files_analyzed` equals the number of discovered
files minus the number of ignored files. -/
theorem report_totals_consistent (pairs : List (String × String)) (files : List PyFile) :
    (analyzeDirectory pairs files).total_matches
      = (analyzeDirectory pairs files).matchList.length ∧
    (analyzeDirectory pairs files).total_files_analyzed
      = files.length - (analyzeDirectory pairs files).ignored_files.length :=
  ⟨rfl, rfl⟩

/-- C10: the `verify_functions` set declared in `__init__` is never
consulted: a file's analysis — its match list and the resulting catalog
state — is identical under any two values of the set, so matching is
attempted identically for names inside and outside it and no noise
filtering beyond the catalog lookup occurs. -/
theorem verify_functions_never_consulted
    (a : Analyzer) (v₁ v₂ : List String) (f : PyFile) :
    (analyzeFile { a with verify_functions := v₁ } f).1
      = (analyzeFile { a with verify_functions := v₂ } f).1 ∧
    (analyzeFile { a with verify_functions := v₁ } f).2.function_modules
      = (analyzeFile { a with verify_functions := v₂ } f).2.function_modules := by
  rw [analyzeFile_set_verify a v₁ f, analyzeFile_set_verify a v₂ f]
  exact ⟨rfl, rfl⟩

end PysparkUsage
